import Mathlib

/-!
Verification of the `mina-cli` repository: a shallow embedding, in Lean 4, of
the parts of the TypeScript source that the specification's claims are about,
together with theorems settling each claim.

Embedded components:
* `src/lib/config.ts` — config defaults, key validation (`isValidKey`),
  `getConfig` fallback behaviour.
* `src/lib/history.ts` — the history ring buffer (`addHistory`, `getHistory`).
* the key/signer adapter (`normalizePrivateKey`, `createSigner`'s chain gate).
* the bridge command's step-state machine (`BridgeStepState`, the
  `onStepChange` folding in `executeBridge`, and the terminal-result update).
* the amount conversion `(parseFloat(amount) * Math.pow(10, decimals)).toString()`
  used by the bridge and wizard quote requests, modelled with exact IEEE-754
  binary64 (double) semantics over `ℚ`.

JavaScript strings are modelled as Lean `String`s; the handful of string
operations the source uses (`trim`, `split('.')`, `startsWith`, `slice`,
`toLowerCase`) are defined below over `List Char`, matching their ECMAScript
behaviour on the (ASCII) inputs involved.
-/

namespace MinaCli

/-! ## Config store (`src/lib/config.ts`) -/

/-- JavaScript `String.prototype.split` with a single-character separator,
over a character list: splits at every occurrence of the separator; a
leading/trailing/doubled separator yields empty fragments, and splitting the
empty string yields `[[]]` (JS: `"".split('.')` is `[""]`). -/
def jsSplitChar (sep : Char) : List Char → List (List Char)
  | [] => [[]]
  | c :: cs =>
      let rest := jsSplitChar sep cs
      if c = sep then [] :: rest
      else
        match rest with
        | [] => [[c]]
        | p :: ps => (c :: p) :: ps

/-- `key.split('.')` from `isValidKey`, on Lean strings. -/
def jsSplitDot (s : String) : List String :=
  (jsSplitChar '.' s.data).map List.asString

/-- `VALID_KEYS = ['slippage', 'autoDeposit', 'defaultChain', 'rpc']`
(config.ts line 39). -/
def VALID_KEYS : List String := ["slippage", "autoDeposit", "defaultChain", "rpc"]

/-- `isValidKey` (config.ts lines 94–104): a key is valid when it splits on
`'.'` into exactly two parts whose first part is `"rpc"`, or when it is one of
the top-level `VALID_KEYS`. -/
def isValidKey (key : String) : Bool :=
  let parts := jsSplitDot key
  if parts.length = 2 ∧ parts.headI = "rpc" then true
  else VALID_KEYS.contains key

/-- The `CliConfig` record. `slippage` is a JS number; the default `0.5` is
exactly representable, so `ℚ` is used for it. `rpc` is an open string map,
modelled as an association list. -/
structure CliConfig where
  slippage : ℚ
  autoDeposit : Bool
  defaultChain : String
  rpc : List (String × Option String)
  deriving DecidableEq, Repr

/-- `DEFAULT_CONFIG` (config.ts lines 29–34). -/
def DEFAULT_CONFIG : CliConfig :=
  { slippage := 1/2, autoDeposit := true, defaultChain := "arbitrum", rpc := [] }

/-- The state of the config file as `getConfig` observes it: the file may be
missing, its content may fail `JSON.parse` (the `corrupt` case carries the raw
text), or it parses to some config-shaped data. The parsed case carries the
fields the merge `{...DEFAULT_CONFIG, ...data, rpc: {...}}` reads, each
optional as in a partially-shaped JSON object. -/
inductive ConfigFile where
  | missing : ConfigFile
  | corrupt (raw : String) : ConfigFile
  | parsed (slippage : Option ℚ) (autoDeposit : Option Bool)
      (defaultChain : Option String) (rpc : Option (List (String × Option String))) :
      ConfigFile
  deriving DecidableEq

/-- `getConfig` (config.ts lines 55–73): missing file returns a copy of the
defaults; a `JSON.parse` failure is caught and returns a copy of the defaults;
otherwise saved fields override defaults and `rpc` is merged over the default
(empty) rpc map. -/
def getConfig : ConfigFile → CliConfig
  | .missing => DEFAULT_CONFIG
  | .corrupt _ => DEFAULT_CONFIG
  | .parsed sl ad dc rpc =>
      { slippage := sl.getD DEFAULT_CONFIG.slippage
        autoDeposit := ad.getD DEFAULT_CONFIG.autoDeposit
        defaultChain := dc.getD DEFAULT_CONFIG.defaultChain
        rpc := DEFAULT_CONFIG.rpc ++ rpc.getD [] }

/-- C2 (counterexample to the claim as stated): the claim asserts
`isValidKey("rpc") = false`, but `"rpc"` is itself a member of `VALID_KEYS`
(config.ts line 39), so the top-level branch of `isValidKey` accepts it:
`isValidKey "rpc" = true`. -/
theorem c2_isValidKey_rpc_counterexample : isValidKey "rpc" = true := by decide

/-- C2 (amended): `isValidKey` returns `true` for `"rpc.arbitrum"` (the nested
`rpc.<chainKey>` pattern), `true` for bare `"rpc"` (it is a top-level key in
`VALID_KEYS`), and `false` for `"bogus"`. -/
theorem c2_isValidKey_values :
    isValidKey "rpc.arbitrum" = true ∧ isValidKey "rpc" = true ∧
      isValidKey "bogus" = false := by
  refine ⟨by decide, by decide, by decide⟩

/-- C7: `getConfig` never throws; for a missing config file and for every file
whose content is not valid JSON (the caught `JSON.parse` failure), it returns
exactly the default config object
`{slippage: 0.5, autoDeposit: true, defaultChain: "arbitrum", rpc: {}}`. -/
theorem c7_getConfig_defaults_on_missing_or_corrupt :
    getConfig ConfigFile.missing =
        { slippage := 0.5, autoDeposit := true, defaultChain := "arbitrum",
          rpc := [] } ∧
      ∀ raw : String,
        getConfig (ConfigFile.corrupt raw) =
          { slippage := 0.5, autoDeposit := true, defaultChain := "arbitrum",
            rpc := [] } := by
  have h : DEFAULT_CONFIG =
      { slippage := 0.5, autoDeposit := true, defaultChain := "arbitrum",
        rpc := ([] : List (String × Option String)) } := by
    unfold DEFAULT_CONFIG
    norm_num
  exact ⟨h, fun _ => h⟩

/-! ## History store (`src/lib/history.ts`) -/

/-- `HistoryEntry.status` values. -/
inductive TxStatus where
  | pending | completed | failed
  deriving DecidableEq, Repr

/-- The persisted `HistoryEntry` record (history.ts lines 22–44). -/
structure HistoryEntry where
  txHash : String
  fromChain : String
  toChain : String
  amount : String
  token : String
  status : TxStatus
  timestamp : ℤ
  walletAddress : Option String
  bridgeTxHash : Option String
  depositTxHash : Option String
  deriving DecidableEq, Repr

/-- `MAX_HISTORY_ENTRIES = 100` (history.ts line 18). -/
def MAX_HISTORY_ENTRIES : ℕ := 100

/-- The state of `~/.mina/history.json` as the store's functions observe it:
missing, unparsable (`JSON.parse` throws; raw text carried), parsed but with a
missing/absent `entries` field (`!data.entries`), or a well-shaped
`{entries, version}` document. -/
inductive HistoryFile where
  | missing : HistoryFile
  | corrupt (raw : String) : HistoryFile
  | parsedNoEntries : HistoryFile
  | valid (entries : List HistoryEntry) (version : ℤ) : HistoryFile
  deriving DecidableEq

/-- The entries list a read of the history file yields: `getHistory` returns
`[]` for a missing file, catches parse failures with `[]`, and falls back via
`data.entries || []`; `addHistory` resets to `{entries: [], version: 1}` in
exactly the same cases. -/
def readEntries : HistoryFile → List HistoryEntry
  | .valid es _ => es
  | _ => []

/-- `addHistory` (history.ts lines 107–135): re-read (or reset) the document,
push the new entry, and if the list now exceeds `MAX_HISTORY_ENTRIES` keep only
the last `MAX_HISTORY_ENTRIES` via `entries.slice(-MAX_HISTORY_ENTRIES)`, then
write back. A reset document gets `version: 1`; otherwise the stored version is
kept. -/
def addHistory (f : HistoryFile) (e : HistoryEntry) : HistoryFile :=
  let version : ℤ := match f with | .valid _ v => v | _ => 1
  let entries := readEntries f ++ [e]
  let entries :=
    if MAX_HISTORY_ENTRIES < entries.length then
      entries.drop (entries.length - MAX_HISTORY_ENTRIES)
    else entries
  .valid entries version

/-- JavaScript `String.prototype.toLowerCase`, restricted to its ASCII action
(the wallet addresses involved are ASCII hex strings). -/
def jsToLowerCase (s : String) : String :=
  ⟨s.data.map Char.toLower⟩

/-- The `getHistory` address filter predicate
`e.walletAddress?.toLowerCase() === address.toLowerCase()`: an entry without a
`walletAddress` never matches (`undefined === string` is false). -/
def matchesWallet (address : String) (e : HistoryEntry) : Bool :=
  match e.walletAddress with
  | some w => jsToLowerCase w == jsToLowerCase address
  | none => false

/-- JavaScript `arr.slice(-n)` for a non-negative integer `n`: for `n = 0` the
negation `-0` is `0`, so the whole array is returned; for `n > 0` the start
index clamps to `max(length - n, 0)`, keeping the last `min(n, length)`
elements. -/
def jsSliceLast {α : Type*} (l : List α) (n : ℕ) : List α :=
  if n = 0 then l else l.drop (l.length - n)

/-- `getHistory` (history.ts lines 77–101): read the entries (missing/corrupt
file gives `[]`), filter case-insensitively by wallet address when one is
given, then return `entries.slice(-limit).reverse()` — the most recent `limit`
entries, most recent first. -/
def getHistory (limit : ℕ) (address : Option String) (f : HistoryFile) :
    List HistoryEntry :=
  let entries := readEntries f
  let entries :=
    match address with
    | some a => entries.filter (matchesWallet a)
    | none => entries
  (jsSliceLast entries limit).reverse

/-! ### History lemmas -/

/-- One `addHistory` step stores exactly the last `MAX_HISTORY_ENTRIES`
elements of the re-read list with the new entry appended. -/
theorem readEntries_addHistory (f : HistoryFile) (e : HistoryEntry) :
    readEntries (addHistory f e) =
      (readEntries f ++ [e]).rtake MAX_HISTORY_ENTRIES := by
  simp only [addHistory]
  split
  · rfl
  · next h =>
    rw [List.rtake]
    have h0 : (readEntries f ++ [e]).length - MAX_HISTORY_ENTRIES = 0 := by omega
    rw [h0, List.drop_zero]
    rfl

/-- Keeping the last `n` of a list, appending, and keeping the last `n` again
is the same as appending and keeping the last `n` once. -/
theorem rtake_append_rtake {α : Type*} (l t : List α) (n : ℕ) :
    (l.rtake n ++ t).rtake n = (l ++ t).rtake n := by
  simp only [List.rtake_eq_reverse_take_reverse, List.reverse_append,
    List.reverse_reverse, List.take_append_eq_append_take, List.take_take]
  rw [Nat.min_eq_left (Nat.sub_le _ _)]

/-- Folding `addHistory` over a non-empty batch of entries stores the last
`MAX_HISTORY_ENTRIES` of (previous entries ++ batch). -/
theorem readEntries_foldl_addHistory :
    ∀ (es : List HistoryEntry) (f : HistoryFile), es ≠ [] →
      readEntries (es.foldl addHistory f) =
        (readEntries f ++ es).rtake MAX_HISTORY_ENTRIES := by
  intro es
  induction es with
  | nil => intro f h; exact absurd rfl h
  | cons e es ih =>
    intro f _
    rcases es with _ | ⟨e', es'⟩
    · simpa using readEntries_addHistory f e
    · have h2 : (e' :: es') ≠ [] := by simp
      calc readEntries (((e' :: es').foldl addHistory (addHistory f e)))
          = (readEntries (addHistory f e) ++ (e' :: es')).rtake MAX_HISTORY_ENTRIES :=
            ih (addHistory f e) h2
        _ = ((readEntries f ++ [e]).rtake MAX_HISTORY_ENTRIES ++ (e' :: es')).rtake
              MAX_HISTORY_ENTRIES := by rw [readEntries_addHistory]
        _ = ((readEntries f ++ [e]) ++ (e' :: es')).rtake MAX_HISTORY_ENTRIES :=
            rtake_append_rtake _ _ _
        _ = (readEntries f ++ (e :: e' :: es')).rtake MAX_HISTORY_ENTRIES := by
            rw [List.append_assoc]; rfl

/-- C5: starting from any history file state, a sequence of 105 `addHistory`
calls leaves exactly 100 stored entries, and they are the 100 most recently
inserted entries in insertion order (the inserted batch with its first 5
entries evicted). -/
theorem c5_addHistory_ring_buffer (f : HistoryFile) (es : List HistoryEntry)
    (h : es.length = 105) :
    readEntries (es.foldl addHistory f) = es.drop 5 ∧
      (readEntries (es.foldl addHistory f)).length = 100 := by
  have hne : es ≠ [] := by
    intro h0; rw [h0] at h; simp at h
  have hfold := readEntries_foldl_addHistory es f hne
  have hright : (readEntries f ++ es).rtake MAX_HISTORY_ENTRIES =
      es.rtake MAX_HISTORY_ENTRIES := by
    simp only [List.rtake_eq_reverse_take_reverse, List.reverse_append]
    rw [List.take_append_of_le_length]
    simp [h, MAX_HISTORY_ENTRIES]
  have hdrop : es.rtake MAX_HISTORY_ENTRIES = es.drop 5 := by
    simp only [List.rtake, h]
    rfl
  rw [hfold, hright, hdrop]
  refine ⟨rfl, ?_⟩
  simp [h]

/-- C5 witness: 105 concrete entries inserted into an initially missing file. -/
theorem c5_addHistory_ring_buffer_witness :
    ((List.range 105).map (fun (i : ℕ) =>
        ({ txHash := "h", fromChain := "arbitrum", toChain := "hyperevm",
           amount := "1", token := "USDC", status := .completed, timestamp := (i : ℤ),
           walletAddress := none, bridgeTxHash := none,
           depositTxHash := none } : HistoryEntry))).length = 105 ∧
      (readEntries (((List.range 105).map (fun (i : ℕ) =>
          ({ txHash := "h", fromChain := "arbitrum", toChain := "hyperevm",
             amount := "1", token := "USDC", status := .completed, timestamp := (i : ℤ),
             walletAddress := none, bridgeTxHash := none,
             depositTxHash := none } : HistoryEntry))).foldl addHistory .missing) =
        ((List.range 105).map (fun (i : ℕ) =>
          ({ txHash := "h", fromChain := "arbitrum", toChain := "hyperevm",
             amount := "1", token := "USDC", status := .completed, timestamp := (i : ℤ),
             walletAddress := none, bridgeTxHash := none,
             depositTxHash := none } : HistoryEntry))).drop 5 ∧
        (readEntries (((List.range 105).map (fun (i : ℕ) =>
          ({ txHash := "h", fromChain := "arbitrum", toChain := "hyperevm",
             amount := "1", token := "USDC", status := .completed, timestamp := (i : ℤ),
             walletAddress := none, bridgeTxHash := none,
             depositTxHash := none } : HistoryEntry))).foldl addHistory .missing)).length
          = 100) :=
  ⟨by rw [List.length_map, List.length_range],
   c5_addHistory_ring_buffer .missing _ (by rw [List.length_map, List.length_range])⟩

/-- C6: for every stored entries list, `getHistory` with a positive `limit` and
an address returns at most `limit` entries, each with `walletAddress`
case-insensitively equal to the given address, and ordered most recent first:
its reverse is a suffix of the stored-order matching entries. -/
theorem c6_getHistory_limit_filter_order (limit : ℕ) (a : String)
    (f : HistoryFile) (hl : 0 < limit) :
    (getHistory limit (some a) f).length ≤ limit ∧
      (∀ e ∈ getHistory limit (some a) f, matchesWallet a e = true) ∧
      (getHistory limit (some a) f).reverse <:+
        (readEntries f).filter (matchesWallet a) := by
  have hne : limit ≠ 0 := Nat.pos_iff_ne_zero.mp hl
  set l := (readEntries f).filter (matchesWallet a) with hldef
  have hg : getHistory limit (some a) f = (l.drop (l.length - limit)).reverse := by
    simp [getHistory, jsSliceLast, hne]
  refine ⟨?_, ?_, ?_⟩
  · rw [hg, List.length_reverse, List.length_drop]
    omega
  · intro e he
    rw [hg] at he
    have : e ∈ l := List.mem_of_mem_drop (List.mem_reverse.mp he)
    exact List.of_mem_filter this
  · rw [hg, List.reverse_reverse]
    exact List.drop_suffix _ _

/-- C6 witness: `getHistory 5 "0xABC"` on a concrete stored list. -/
theorem c6_getHistory_limit_filter_order_witness :
    0 < 5 ∧
      ((getHistory 5 (some "0xABC")
            (HistoryFile.valid
              [{ txHash := "t1", fromChain := "arbitrum", toChain := "hyperevm",
                 amount := "1", token := "USDC", status := .completed,
                 timestamp := 1, walletAddress := some "0xabc",
                 bridgeTxHash := none, depositTxHash := none }] 1)).length ≤ 5 ∧
        (∀ e ∈ getHistory 5 (some "0xABC")
            (HistoryFile.valid
              [{ txHash := "t1", fromChain := "arbitrum", toChain := "hyperevm",
                 amount := "1", token := "USDC", status := .completed,
                 timestamp := 1, walletAddress := some "0xabc",
                 bridgeTxHash := none, depositTxHash := none }] 1),
          matchesWallet "0xABC" e = true) ∧
        (getHistory 5 (some "0xABC")
            (HistoryFile.valid
              [{ txHash := "t1", fromChain := "arbitrum", toChain := "hyperevm",
                 amount := "1", token := "USDC", status := .completed,
                 timestamp := 1, walletAddress := some "0xabc",
                 bridgeTxHash := none, depositTxHash := none }] 1)).reverse <:+
          (readEntries
            (HistoryFile.valid
              [{ txHash := "t1", fromChain := "arbitrum", toChain := "hyperevm",
                 amount := "1", token := "USDC", status := .completed,
                 timestamp := 1, walletAddress := some "0xabc",
                 bridgeTxHash := none, depositTxHash := none }] 1)).filter
            (matchesWallet "0xABC")) :=
  ⟨by decide, c6_getHistory_limit_filter_order 5 "0xABC" _ (by decide)⟩

/-- C10: `getHistory` called with `limit = 0` returns all stored entries
reversed rather than zero entries, because JavaScript `slice(-0)` is
`slice(0)` and selects the whole list; on a non-empty stored list the result
is in particular non-empty. -/
theorem c10_getHistory_zero_limit (f : HistoryFile)
    (h : readEntries f ≠ []) :
    getHistory 0 none f = (readEntries f).reverse ∧
      getHistory 0 none f ≠ [] := by
  have hg : getHistory 0 none f = (readEntries f).reverse := by
    simp [getHistory, jsSliceLast]
  refine ⟨hg, ?_⟩
  rw [hg]
  simpa using h

/-- C10 witness: a one-entry stored list. -/
theorem c10_getHistory_zero_limit_witness :
    readEntries
        (HistoryFile.valid
          [{ txHash := "t1", fromChain := "arbitrum", toChain := "hyperevm",
             amount := "1", token := "USDC", status := .completed,
             timestamp := 1, walletAddress := none, bridgeTxHash := none,
             depositTxHash := none }] 1) ≠ [] ∧
      (getHistory 0 none
          (HistoryFile.valid
            [{ txHash := "t1", fromChain := "arbitrum", toChain := "hyperevm",
               amount := "1", token := "USDC", status := .completed,
               timestamp := 1, walletAddress := none, bridgeTxHash := none,
               depositTxHash := none }] 1) =
          (readEntries
            (HistoryFile.valid
              [{ txHash := "t1", fromChain := "arbitrum", toChain := "hyperevm",
                 amount := "1", token := "USDC", status := .completed,
                 timestamp := 1, walletAddress := none, bridgeTxHash := none,
                 depositTxHash := none }] 1)).reverse ∧
        getHistory 0 none
            (HistoryFile.valid
              [{ txHash := "t1", fromChain := "arbitrum", toChain := "hyperevm",
                 amount := "1", token := "USDC", status := .completed,
                 timestamp := 1, walletAddress := none, bridgeTxHash := none,
                 depositTxHash := none }] 1) ≠ []) :=
  ⟨by decide, c10_getHistory_zero_limit _ (by decide)⟩

/-! ## Wallet/key adapter (private key handling and signer construction) -/

/-- The whitespace class trimmed by JavaScript `String.prototype.trim`
(ECMAScript WhiteSpace and LineTerminator code points). -/
def jsIsWhiteSpace (c : Char) : Bool :=
  c = '\t' || c = '\n' || c = '\x0b' || c = '\x0c' || c = '\r' || c = ' ' ||
    c = '\u00A0' || c = '\u1680' || ('\u2000' ≤ c && c ≤ '\u200A') ||
    c = '\u2028' || c = '\u2029' || c = '\u202F' || c = '\u205F' ||
    c = '\u3000' || c = '\uFEFF'

/-- JavaScript `String.prototype.trim`: strip leading and trailing
whitespace. -/
def jsTrim (s : String) : String :=
  ⟨((s.data.dropWhile jsIsWhiteSpace).reverse.dropWhile jsIsWhiteSpace).reverse⟩

/-- JavaScript `str.startsWith('0x')`: the first two characters are `0x`. -/
def startsWith0x (l : List Char) : Bool :=
  decide (l.take 2 = ['0', 'x'])

/-- One character of the regex class `[0-9a-fA-F]`. -/
def isHexDigitJs (c : Char) : Bool :=
  ('0' ≤ c && c ≤ '9') || ('a' ≤ c && c ≤ 'f') || ('A' ≤ c && c ≤ 'F')

/-- The regex test `/^[0-9a-fA-F]{64}$/.test(s)`: exactly 64 hex
characters. -/
def regexTest64Hex (l : List Char) : Bool :=
  l.length == 64 && l.all isHexDigitJs

/-- `keyWithoutPrefix`: the trimmed key with an optional leading `"0x"`
removed (`trimmed.startsWith('0x') ? trimmed.slice(2) : trimmed`). -/
def hexBody (t : String) : String :=
  if startsWith0x t.data then ⟨t.data.drop 2⟩ else t

/-- The error thrown by `normalizePrivateKey`:
`Invalid private key format. Expected 64 hex characters.` -/
inductive KeyError where
  | invalidKeyFormat
  deriving DecidableEq, Repr

/-- `normalizePrivateKey` (key-handling module, lines 73–84): trim, strip an
optional `0x` prefix, require exactly 64 hex characters, and return the
trimmed key `0x`-prefixed (adding the prefix when it was absent). -/
def normalizePrivateKey (key : String) : Except KeyError String :=
  let trimmed := jsTrim key
  if regexTest64Hex (hexBody trimmed).data then
    .ok (if startsWith0x trimmed.data then trimmed else "0x" ++ trimmed)
  else .error .invalidKeyFormat

/-- C8: for every input string, `normalizePrivateKey` succeeds if and only if
the trimmed input, after removing an optional `0x` prefix, is exactly 64
hexadecimal characters; on success the returned key carries a `0x` prefix
(its first two characters are `0x`), and otherwise the invalid-key-format
error is thrown. -/
theorem normalizePrivateKey_eq (s : String) :
    normalizePrivateKey s =
      if regexTest64Hex (hexBody (jsTrim s)).data then
        .ok (if startsWith0x (jsTrim s).data then jsTrim s else "0x" ++ jsTrim s)
      else .error .invalidKeyFormat := rfl

/-- C8: for every input string, `normalizePrivateKey` succeeds if and only if
the trimmed input, after removing an optional `0x` prefix, is exactly 64
hexadecimal characters; on success the returned key carries a `0x` prefix
(its first two characters are `0x`), and otherwise the invalid-key-format
error is thrown. -/
theorem c8_normalizePrivateKey_valid_iff (s : String) :
    ((normalizePrivateKey s).isOk = true ↔
        (hexBody (jsTrim s)).data.length = 64 ∧
          ∀ c ∈ (hexBody (jsTrim s)).data, isHexDigitJs c = true) ∧
      (∀ r, normalizePrivateKey s = .ok r → r.data.take 2 = ['0', 'x']) ∧
      (¬ ((hexBody (jsTrim s)).data.length = 64 ∧
            ∀ c ∈ (hexBody (jsTrim s)).data, isHexDigitJs c = true) →
        normalizePrivateKey s = .error .invalidKeyFormat) := by
  have hiff : regexTest64Hex (hexBody (jsTrim s)).data = true ↔
      (hexBody (jsTrim s)).data.length = 64 ∧
        ∀ c ∈ (hexBody (jsTrim s)).data, isHexDigitJs c = true := by
    simp [regexTest64Hex, List.all_eq_true]
  refine ⟨?_, ?_, ?_⟩
  · rw [normalizePrivateKey_eq]
    split
    · next h => exact ⟨fun _ => hiff.mp h, fun _ => rfl⟩
    · next h =>
      constructor
      · intro h2
        exact absurd (Bool.false_ne_true (by exact h2)) (by simp)
      · intro h2
        exact absurd (hiff.mpr h2) h
  · intro r hr
    rw [normalizePrivateKey_eq] at hr
    split at hr
    · have hr2 : (if startsWith0x (jsTrim s).data then jsTrim s
          else "0x" ++ jsTrim s) = r := by
        injection hr
      rw [← hr2]
      split
      · next hsw => exact of_decide_eq_true hsw
      · rw [String.data_append]
        rfl
    · exact absurd hr (by simp)
  · intro h2
    rw [normalizePrivateKey_eq]
    split
    · next h => exact absurd (hiff.mp h) h2
    · rfl

/-- C8 witness: a concrete 64-hex-character key with a `0x` prefix is
accepted. -/
theorem c8_normalizePrivateKey_valid_iff_witness :
    (normalizePrivateKey "0xaaaaaaaaaaaaaaaaaaaaaaaaaaaaaaaaaaaaaaaaaaaaaaaaaaaaaaaaaaaaaaaa").isOk = true :=
  (c8_normalizePrivateKey_valid_iff "0xaaaaaaaaaaaaaaaaaaaaaaaaaaaaaaaaaaaaaaaaaaaaaaaaaaaaaaaaaaaaaaaa").1.mpr
    ⟨by decide, by decide⟩

/-- The chain configurations `createSigner` can bind a signer to: the seven
viem-provided mainnet configs it imports, plus the two custom HyperEVM
configs it defines inline (id 999 `HyperEVM` and id 998 `HyperEVM Testnet`,
both with the 18-decimal `HYPE` native currency). The viem-owned values are
opaque imports here. -/
inductive ViemChain where
  | mainnet | arbitrum | optimism | polygon | base | avalanche | bsc
  | hyperEvmMainnet
  | hyperEvmTestnet
  deriving DecidableEq, Repr

/-- The `chainMap` object lookup `chainMap[chainId]` in `createSigner`
(key-handling module, lines 106–133): a record keyed by the nine supported
chain ids. -/
def chainFor (chainId : ℤ) : Option ViemChain :=
  if chainId = 1 then some .mainnet
  else if chainId = 42161 then some .arbitrum
  else if chainId = 10 then some .optimism
  else if chainId = 137 then some .polygon
  else if chainId = 8453 then some .base
  else if chainId = 43114 then some .avalanche
  else if chainId = 56 then some .bsc
  else if chainId = 999 then some .hyperEvmMainnet
  else if chainId = 998 then some .hyperEvmTestnet
  else none

/-- The allow-list of supported chain ids, as written in `chainMap`. -/
def supportedChainIds : List ℤ := [1, 42161, 10, 137, 8453, 43114, 56, 999, 998]

/-- The error message `createSigner` throws for an unsupported chain id:
`Unsupported chain ID: ${chainId}. Supported: ${Object.keys(chainMap).join(', ')}`
— JavaScript enumerates the integer-like keys of `chainMap` in ascending
numeric order. -/
def unsupportedChainMessage (chainId : ℤ) : String :=
  s!"Unsupported chain ID: {chainId}. Supported: 1, 10, 56, 137, 998, 999, 8453, 42161, 43114"

/-- The chain-bound signer handle `createSigner` returns; its
`sendTransaction`/`getAddress` behaviour delegates to the external viem
wallet client and is outside this embedding, while `getChainId` returns the
bound `chainId`. -/
structure SignerModel where
  chain : ViemChain
  chainId : ℤ
  privateKey : String
  deriving DecidableEq, Repr

/-- `createSigner` (key-handling module, lines 99–174), up to the external
viem account/wallet-client construction: look the chain id up in `chainMap`
and fail closed with `unsupportedChainMessage` when it is absent; the lookup
happens before any use of the private key. -/
def createSigner (privateKey : String) (chainId : ℤ) :
    Except String SignerModel :=
  match chainFor chainId with
  | none => .error (unsupportedChainMessage chainId)
  | some chain => .ok { chain := chain, chainId := chainId, privateKey := privateKey }

/-- C9: `createSigner` succeeds only for chain ids in the fixed allow-list
`{1, 42161, 10, 137, 8453, 43114, 56, 999, 998}`; for every other chain id it
throws the error enumerating the supported chain ids. -/
theorem c9_createSigner_chain_allowlist (pk : String) (chainId : ℤ) :
    ((createSigner pk chainId).isOk = true → chainId ∈ supportedChainIds) ∧
      (chainId ∉ supportedChainIds →
        createSigner pk chainId = .error (unsupportedChainMessage chainId)) := by
  have hmem : (chainFor chainId).isSome = true ↔ chainId ∈ supportedChainIds := by
    unfold chainFor supportedChainIds
    split_ifs with h1 h2 h3 h4 h5 h6 h7 h8 h9 <;> simp_all
  constructor
  · intro h
    apply hmem.mp
    unfold createSigner at h
    cases hc : chainFor chainId with
    | none => rw [hc] at h; exact absurd h (by simp [Except.isOk, Except.toBool])
    | some c => simp [hc]
  · intro h
    have hnone : chainFor chainId = none := by
      cases hc : chainFor chainId with
      | none => rfl
      | some c => exact absurd (hmem.mp (by simp [hc])) h
    unfold createSigner
    rw [hnone]

/-- C9 witness: chain id 2 (an unsupported id) is rejected with the
enumerated error message. -/
theorem c9_createSigner_chain_allowlist_witness :
    (2 : ℤ) ∉ supportedChainIds ∧
      createSigner "0xab" 2 = .error (unsupportedChainMessage 2) :=
  ⟨by decide, (c9_createSigner_chain_allowlist "0xab" 2).2 (by decide)⟩

/-! ## Bridge step-state machine (bridge command, `executeBridge`) -/

/-- The status of one display phase of `BridgeStepState`. -/
inductive StepStatus where
  | pending | active | completed | failed
  deriving DecidableEq, Repr, Fintype

/-- The step names carried by the SDK's step-change events
(`stepStatus.step`). The fifth display phase (`confirm`) is driven by
`deposit` events. -/
inductive StepKind where
  | approval | bridge | swap | deposit
  deriving DecidableEq, Repr, Fintype

/-- A step-change event `{step, status}` as read by the `onStepChange`
callback (the `txHash` field of the payload is never read there). -/
structure StepEvent where
  step : StepKind
  status : StepStatus
  deriving DecidableEq, Repr, Fintype

/-- `BridgeStepState` (bridge command, lines 294–300): five named phases in
display order `loading, quote, approval, bridge, confirm`. -/
structure BridgeStepState where
  loading : StepStatus
  quote : StepStatus
  approval : StepStatus
  bridge : StepStatus
  confirm : StepStatus
  deriving DecidableEq, Repr, Fintype

/-- The phases of a `BridgeStepState` in display order. -/
def phases (s : BridgeStepState) : List StepStatus :=
  [s.loading, s.quote, s.approval, s.bridge, s.confirm]

/-- The `onStepChange` callback of `executeBridge` (bridge command, lines
427–448): `approval: completed` also activates `bridge`; `bridge`/`swap`
`completed` also activates `confirm`; `deposit` events drive `confirm`;
`failed` marks the phase failed; all other statuses leave the state
unchanged. -/
def applyStepChange (s : BridgeStepState) (e : StepEvent) : BridgeStepState :=
  match e.step with
  | .approval =>
      if e.status = .completed then
        { s with approval := .completed, bridge := .active }
      else if e.status = .failed then { s with approval := .failed }
      else s
  | .bridge | .swap =>
      if e.status = .completed then
        { s with bridge := .completed, confirm := .active }
      else if e.status = .failed then { s with bridge := .failed }
      else s
  | .deposit =>
      if e.status = .completed then { s with confirm := .completed }
      else if e.status = .failed then { s with confirm := .failed }
      else s

/-- The terminal-result update for `executeResult.status === 'completed'`
(bridge command, lines 456–463): mark `approval`, `bridge` and `confirm`
completed. A failed terminal result leaves the step state unchanged. -/
def applyCompletedResult (s : BridgeStepState) : BridgeStepState :=
  { s with approval := .completed, bridge := .completed, confirm := .completed }

/-- The initial component state (line 294): `loading` active, the rest
pending. -/
def initialStepState : BridgeStepState :=
  ⟨.active, .pending, .pending, .pending, .pending⟩

/-- After chain/token resolution: `loading` completed and `quote` active in
one update (line 361). -/
def loadedState : BridgeStepState :=
  ⟨.completed, .active, .pending, .pending, .pending⟩

/-- After the quote arrives: `quote` completed (line 377). -/
def quotedState : BridgeStepState :=
  ⟨.completed, .completed, .pending, .pending, .pending⟩

/-- The `loadInitialData` catch-block update (lines 398–402): whichever of
`loading`/`quote` is currently active becomes failed. -/
def applyLoadFailure (s : BridgeStepState) : BridgeStepState :=
  { s with
    loading := if s.loading = .active then .failed else s.loading
    quote := if s.quote = .active then .failed else s.quote }

/-- The step state at the beginning of `executeBridge` (line 413 sets
`approval` active after a successful load/quote). -/
def execStartState : BridgeStepState :=
  ⟨.completed, .completed, .active, .pending, .pending⟩

/-- The claim C4 invariant, phrased over the display order: at most one phase
is active; every phase left of an active phase is completed or failed; every
phase right of an active phase is pending. -/
def StepInv (s : BridgeStepState) : Prop :=
  (phases s).countP (fun p => p == StepStatus.active) ≤ 1 ∧
    ∀ i j : Fin 5, i < j →
      ((phases s).get i = .active → (phases s).get j = .pending) ∧
      ((phases s).get j = .active →
        ((phases s).get i = .completed ∨ (phases s).get i = .failed))

instance (s : BridgeStepState) : Decidable (StepInv s) :=
  inferInstanceAs (Decidable
    ((phases s).countP (fun p => p == StepStatus.active) ≤ 1 ∧
      ∀ i j : Fin 5, i < j →
        ((phases s).get i = .active → (phases s).get j = .pending) ∧
        ((phases s).get j = .active →
          ((phases s).get i = .completed ∨ (phases s).get i = .failed))))

/-- C3's well-formed event sequence: the five phase transitions of a fully
successful execution. The spec names the last two events by the display
phase `confirm`; the SDK step name driving that phase is `deposit`. -/
def c3Events : List StepEvent :=
  [⟨.approval, .completed⟩, ⟨.bridge, .active⟩, ⟨.bridge, .completed⟩,
   ⟨.deposit, .active⟩, ⟨.deposit, .completed⟩]

/-- One run's trace for the C3 sequence: the pre-execution states, every
intermediate state of the event fold from the execution-start state, and the
terminal-result update. -/
def c3Trace : List BridgeStepState :=
  [initialStepState, loadedState, quotedState] ++
    c3Events.scanl applyStepChange execStartState ++
    [applyCompletedResult (c3Events.foldl applyStepChange execStartState)]

/-- Between two consecutive trace states, no phase becomes completed unless
it was already completed or was active. -/
def NoSkipPair (s t : BridgeStepState) : Prop :=
  ∀ i : Fin 5, (phases t).get i = .completed →
    (phases s).get i = .completed ∨ (phases s).get i = .active

instance (s t : BridgeStepState) : Decidable (NoSkipPair s t) :=
  inferInstanceAs (Decidable
    (∀ i : Fin 5, (phases t).get i = .completed →
      (phases s).get i = .completed ∨ (phases s).get i = .active))

/-- `NoSkipPair` holds between every two consecutive states of a trace. -/
def noSkipTrace : List BridgeStepState → Bool
  | s :: t :: rest => decide (NoSkipPair s t) && noSkipTrace (t :: rest)
  | _ => true

/-- C3: folding the well-formed step-change sequence
`approval:completed, bridge:active, bridge:completed, confirm:active,
confirm:completed` (then the terminal completed result) from the step state
at the beginning of execution yields all five phases completed, and along the
whole trace no phase reaches completed without having been active first. -/
theorem c3_wellformed_sequence_completes :
    (applyCompletedResult (c3Events.foldl applyStepChange execStartState) =
        ⟨.completed, .completed, .completed, .completed, .completed⟩) ∧
      noSkipTrace c3Trace = true := by
  decide

/-- A resolved phase: completed or failed. -/
def resolvedStatus (p : StepStatus) : Bool :=
  p == .completed || p == .failed

/-- The ordering stage of an event's step: approval events, then bridge/swap
events, then deposit events. -/
def stageOf : StepKind → ℕ
  | .approval => 0
  | .bridge => 1
  | .swap => 1
  | .deposit => 2

/-- The well-formedness hypothesis exactly as claim C4 states it: step-change
events are ordered approval before bridge/swap before deposit, with no
further condition. -/
def orderedEvents : ℕ → List StepEvent → Bool
  | _, [] => true
  | st, e :: rest =>
      decide (st ≤ stageOf e.step) && orderedEvents (max st (stageOf e.step)) rest

/-- The phase-resolution gate: a bridge/swap event may arrive only once the
approval phase has resolved, and a deposit event only once the bridge phase
has resolved. -/
def gateOk (s : BridgeStepState) (e : StepEvent) : Bool :=
  match e.step with
  | .approval => true
  | .bridge | .swap => resolvedStatus s.approval
  | .deposit => resolvedStatus s.bridge

/-- The amended well-formedness: the events are ordered as in the claim and
each arrives only after the preceding phase has resolved. -/
def wfEvents : BridgeStepState → ℕ → List StepEvent → Bool
  | _, _, [] => true
  | s, st, e :: rest =>
      decide (st ≤ stageOf e.step) && gateOk s e &&
        wfEvents (applyStepChange s e) (max st (stageOf e.step)) rest

/-- `stageOf` never exceeds 2. -/
theorem stageOf_le_two (k : StepKind) : stageOf k ≤ 2 := by
  cases k <;> decide

/-- The `(approval, bridge, confirm)` triples reachable from the
execution-start state by `gateOk`-gated, stage-ordered events, indexed by the
current stage: stage 0 (only approval events so far), stage 1 (some
bridge/swap event has arrived, so approval has resolved), stage ≥ 2 (some
deposit event has arrived, so approval and bridge have resolved). -/
def tripleSetAt : ℕ → List (StepStatus × StepStatus × StepStatus)
  | 0 =>
      ([(.active, .pending, .pending), (.completed, .active, .pending),
        (.failed, .pending, .pending), (.failed, .active, .pending)] :
        List (StepStatus × StepStatus × StepStatus))
  | 1 =>
      ([(.completed, .active, .pending), (.failed, .pending, .pending),
        (.failed, .active, .pending),
        (.completed, .completed, .active), (.failed, .completed, .active),
        (.completed, .failed, .pending), (.failed, .failed, .pending),
        (.completed, .failed, .active), (.failed, .failed, .active)] :
        List (StepStatus × StepStatus × StepStatus))
  | _ =>
      ([(.completed, .completed, .pending),
        (.completed, .completed, .active),
        (.completed, .completed, .completed),
        (.completed, .completed, .failed),
        (.completed, .failed, .pending),
        (.completed, .failed, .active),
        (.completed, .failed, .completed),
        (.completed, .failed, .failed),
        (.failed, .completed, .pending),
        (.failed, .completed, .active),
        (.failed, .completed, .completed),
        (.failed, .completed, .failed),
        (.failed, .failed, .pending),
        (.failed, .failed, .active),
        (.failed, .failed, .completed),
        (.failed, .failed, .failed)] :
        List (StepStatus × StepStatus × StepStatus))

/-- The fold states reachable at a given stage: `loading` and `quote` stay
completed and the phase triple lies in `tripleSetAt`. -/
def reachableAt (st : ℕ) (s : BridgeStepState) : Bool :=
  s.loading == .completed && s.quote == .completed &&
    decide ((s.approval, s.bridge, s.confirm) ∈ tripleSetAt st)

/-- Gated, ordered step-change events preserve the stage-indexed reachable
sets. -/
theorem reachableAt_step (st : ℕ) (hst2 : st ≤ 2) (s : BridgeStepState)
    (e : StepEvent) (hR : reachableAt st s = true)
    (hord : st ≤ stageOf e.step) (hg : gateOk s e = true) :
    reachableAt (max st (stageOf e.step)) (applyStepChange s e) = true := by
  obtain ⟨l, q, a, b, c⟩ := s
  obtain ⟨k, st'⟩ := e
  simp only [reachableAt, Bool.and_eq_true, beq_iff_eq,
    decide_eq_true_eq] at hR
  obtain ⟨⟨hl, hq⟩, hmem⟩ := hR
  subst hl
  subst hq
  cases k <;> dsimp only [stageOf] at hord ⊢ <;> interval_cases st <;>
    first
      | omega
      | (simp only [tripleSetAt] at hmem
         fin_cases hmem <;> cases st' <;> revert hg <;> decide)

/-- Every state in a stage-indexed reachable set satisfies the C4
invariant. -/
theorem reachableAt_inv (st : ℕ) (hst2 : st ≤ 2) (s : BridgeStepState)
    (hR : reachableAt st s = true) : StepInv s := by
  obtain ⟨l, q, a, b, c⟩ := s
  simp only [reachableAt, Bool.and_eq_true, beq_iff_eq,
    decide_eq_true_eq] at hR
  obtain ⟨⟨hl, hq⟩, hmem⟩ := hR
  subst hl
  subst hq
  interval_cases st <;> simp only [tripleSetAt] at hmem <;>
    fin_cases hmem <;> decide

/-- A reachable state keeps `loading` and `quote` completed. -/
theorem reachableAt_completed_fields (st : ℕ) (s : BridgeStepState)
    (h : reachableAt st s = true) :
    s.loading = .completed ∧ s.quote = .completed := by
  simp only [reachableAt, Bool.and_eq_true, beq_iff_eq] at h
  exact ⟨h.1.1, h.1.2⟩

/-- The terminal completed-result update satisfies the invariant from any
state whose `loading` and `quote` phases are completed. -/
theorem stepInv_applyCompletedResult (s : BridgeStepState)
    (hl : s.loading = .completed) (hq : s.quote = .completed) :
    StepInv (applyCompletedResult s) := by
  obtain ⟨l, q, a, b, c⟩ := s
  cases hl
  cases hq
  exact (by decide : StepInv
    ⟨.completed, .completed, .completed, .completed, .completed⟩)

/-- Along a gated well-formed fold, every intermediate state lies in a
stage-indexed reachable set. -/
theorem wf_scanl_reachable :
    ∀ (evs : List StepEvent) (s : BridgeStepState) (st : ℕ), st ≤ 2 →
      reachableAt st s = true → wfEvents s st evs = true →
      ∀ t ∈ evs.scanl applyStepChange s,
        ∃ st2, st2 ≤ 2 ∧ reachableAt st2 t = true := by
  intro evs
  induction evs with
  | nil =>
    intro s st hst2 hR _ t ht
    simp only [List.scanl, List.mem_singleton] at ht
    rw [ht]
    exact ⟨st, hst2, hR⟩
  | cons e evs ih =>
    intro s st hst2 hR hwf t ht
    simp only [wfEvents, Bool.and_eq_true, decide_eq_true_eq] at hwf
    rw [List.scanl] at ht
    rcases List.mem_cons.mp ht with h | h
    · rw [h]; exact ⟨st, hst2, hR⟩
    · exact ih (applyStepChange s e) (max st (stageOf e.step))
        (max_le hst2 (stageOf_le_two e.step))
        (reachableAt_step st hst2 s e hR hwf.1.1 hwf.1.2) hwf.2 t h

/-- The gated well-formed fold ends in a stage-indexed reachable set. -/
theorem wf_foldl_reachable :
    ∀ (evs : List StepEvent) (s : BridgeStepState) (st : ℕ), st ≤ 2 →
      reachableAt st s = true → wfEvents s st evs = true →
      ∃ st2, st2 ≤ 2 ∧
        reachableAt st2 (evs.foldl applyStepChange s) = true := by
  intro evs
  induction evs with
  | nil => intro s st hst2 hR _; exact ⟨st, hst2, hR⟩
  | cons e evs ih =>
    intro s st hst2 hR hwf
    simp only [wfEvents, Bool.and_eq_true, decide_eq_true_eq] at hwf
    exact ih (applyStepChange s e) (max st (stageOf e.step))
      (max_le hst2 (stageOf_le_two e.step))
      (reachableAt_step st hst2 s e hR hwf.1.1 hwf.1.2) hwf.2

/-- Every step state one bridge-command run passes through: the initial
state, the two successful load/quote updates, the two possible catch-block
failure updates, every intermediate state of the step-change fold from the
execution-start state, and the terminal-result update. -/
def c4Run (evs : List StepEvent) : List BridgeStepState :=
  [initialStepState, loadedState, quotedState,
   applyLoadFailure initialStepState, applyLoadFailure loadedState] ++
    evs.scanl applyStepChange execStartState ++
    [applyCompletedResult (evs.foldl applyStepChange execStartState)]

/-- C4 (counterexample to the claim as stated): the event sequence
`approval:active, bridge:completed` is ordered approval before bridge before
deposit, yet after its fold from the execution-start state both `approval`
and `confirm` are active, violating the claimed invariant (the code only
resolves `approval` on an approval completed/failed event, while a
bridge-completed event activates `confirm` regardless). -/
theorem c4_step_invariant_counterexample :
    orderedEvents 0
        [⟨.approval, .active⟩, ⟨.bridge, .completed⟩] = true ∧
      ¬ StepInv
        ([(⟨.approval, .active⟩ : StepEvent),
          ⟨.bridge, .completed⟩].foldl applyStepChange execStartState) := by
  decide

/-- C4 (amended): if additionally each phase's events arrive only after the
preceding phase has resolved (completed or failed) — the `gateOk` condition
folded into `wfEvents` — then every `BridgeStepState` reachable within one
run of the bridge command (initial state, load/quote transitions and their
failure updates, each step-change callback update, and the terminal-result
update) has at most one active phase, with every phase left of the active one
completed or failed and every phase right of it pending. -/
theorem c4_step_invariant (evs : List StepEvent)
    (hwf : wfEvents execStartState 0 evs = true) :
    ∀ s ∈ c4Run evs, StepInv s := by
  intro s hs
  simp only [c4Run, List.append_assoc, List.mem_append, List.mem_cons,
    List.mem_singleton, List.not_mem_nil, or_false] at hs
  have hstart : reachableAt 0 execStartState = true := by decide
  rcases hs with (h | h | h | h | h) | h | h
  · rw [h]; decide
  · rw [h]; decide
  · rw [h]; decide
  · rw [h]; decide
  · rw [h]; decide
  · obtain ⟨st2, hst2, hR⟩ :=
      wf_scanl_reachable evs execStartState 0 (by decide) hstart hwf s h
    exact reachableAt_inv st2 hst2 s hR
  · rw [h]
    obtain ⟨st2, hst2, hR⟩ :=
      wf_foldl_reachable evs execStartState 0 (by decide) hstart hwf
    obtain ⟨hl, hq⟩ := reachableAt_completed_fields st2 _ hR
    exact stepInv_applyCompletedResult _ hl hq

/-- C4 witness: the fully successful gated sequence
`approval:completed, bridge:completed, deposit:completed`. -/
theorem c4_step_invariant_witness :
    wfEvents execStartState 0
        [⟨.approval, .completed⟩, ⟨.bridge, .completed⟩,
         ⟨.deposit, .completed⟩] = true ∧
      ∀ s ∈ c4Run
          [⟨.approval, .completed⟩, ⟨.bridge, .completed⟩,
           ⟨.deposit, .completed⟩], StepInv s :=
  ⟨by decide,
   c4_step_invariant
     [⟨.approval, .completed⟩, ⟨.bridge, .completed⟩, ⟨.deposit, .completed⟩]
     (by decide)⟩

/-! ## Amount conversion (bridge and wizard quote requests)

The bridge command (`loadInitialData`, line 366) and the wizard
(`handleKeyConfirm`, line 948) compute the quote-request amount as
`(parseFloat(amount) * Math.pow(10, decimals)).toString()` — IEEE-754 binary64
(double) arithmetic followed by JavaScript number-to-string conversion, with
no truncation to an integer. The model below embeds that pipeline exactly
over `ℚ`: every double is represented by its exact rational value, rounding
is round-to-nearest-ties-even at 53 significant bits (faithful throughout the
normal, non-overflowing range of binary64, which covers every value these
claims involve), and `Number.prototype.toString` is the ECMAScript
shortest-round-trip decimal conversion.

Only `mkRat`, `Rat.num`/`Rat.den` and integer arithmetic are used, so every
definition evaluates by kernel reduction. -/

/-- `⌊log b n⌋` for naturals via explicit fuel (`natLogFuel b n` with
`b ≥ 2`, `n ≥ 1`). -/
def natLogAux (b : ℕ) : ℕ → ℕ → ℕ
  | 0, _ => 0
  | fuel + 1, n => if n < b then 0 else natLogAux b fuel (n / b) + 1

/-- `⌊log b n⌋` (0 for `n = 0`). -/
def natLogFuel (b n : ℕ) : ℕ :=
  natLogAux b n n

/-- `⌊log b q⌋` for a positive rational `q` and base `b ≥ 2`. -/
def ratLogFloor (b : ℕ) (q : ℚ) : ℤ :=
  let num := q.num.toNat
  let den := q.den
  let la := natLogFuel b num
  let lb := natLogFuel b den
  if lb ≤ la then
    if den * b ^ (la - lb) ≤ num then ((la - lb : ℕ) : ℤ) else (la : ℤ) - lb - 1
  else
    if den ≤ num * b ^ (lb - la) then (la : ℤ) - (lb : ℤ) else (la : ℤ) - lb - 1

/-- Round a non-negative rational to the nearest integer, ties to even. -/
def qrne (x : ℚ) : ℤ :=
  let f : ℤ := x.num.fdiv x.den
  let num2 : ℤ := x.num - f * x.den
  if 2 * num2 < (x.den : ℤ) then f
  else if ((x.den : ℤ)) < 2 * num2 then f + 1
  else if f % 2 = 0 then f else f + 1

/-- `x * 2 ^ t` for `x : ℚ`, `t : ℤ`, via `mkRat`. -/
def qScalePow2 (x : ℚ) (t : ℤ) : ℚ :=
  if 0 ≤ t then mkRat (x.num * ((2 ^ t.toNat : ℕ) : ℤ)) x.den
  else mkRat x.num (x.den * 2 ^ (-t).toNat)

/-- `x * 10 ^ t` for `x : ℚ`, `t : ℤ`, via `mkRat`. -/
def qScalePow10 (x : ℚ) (t : ℤ) : ℚ :=
  if 0 ≤ t then mkRat (x.num * ((10 ^ t.toNat : ℕ) : ℤ)) x.den
  else mkRat x.num (x.den * 10 ^ (-t).toNat)

/-- `s * 10 ^ t` for `s t : ℤ`, via `mkRat`. -/
def intMulPow10 (s : ℤ) (t : ℤ) : ℚ :=
  if 0 ≤ t then mkRat (s * ((10 ^ t.toNat : ℕ) : ℤ)) 1
  else mkRat s (10 ^ (-t).toNat)

/-- Round a positive rational to the nearest IEEE-754 binary64 value
(53 significant bits, round-to-nearest-ties-even), as an exact rational. -/
def fp64roundPos (q : ℚ) : ℚ :=
  let e : ℤ := ratLogFloor 2 q - 52
  let m : ℤ := qrne (qScalePow2 q (-e))
  if 0 ≤ e then mkRat (m * ((2 ^ e.toNat : ℕ) : ℤ)) 1
  else mkRat m (2 ^ (-e).toNat)

/-- Round a rational to the nearest binary64 value (normal range; overflow to
infinity and subnormal underflow are outside the model and outside every
value the claims involve). -/
def fp64round (q : ℚ) : ℚ :=
  if q.num = 0 then 0
  else if q.num < 0 then
    let r := fp64roundPos (mkRat (-q.num) q.den)
    mkRat (-r.num) r.den
  else fp64roundPos q

/-- Binary64 multiplication: the exact product, correctly rounded. -/
def fp64mul (a b : ℚ) : ℚ :=
  fp64round (mkRat (a.num * b.num) (a.den * b.den))

/-- A decimal digit. -/
def isDigitChar (c : Char) : Bool :=
  '0' ≤ c && c ≤ '9'

/-- The natural number denoted by a list of decimal digit characters. -/
def digitsToNat : List Char → ℕ → ℕ
  | [], acc => acc
  | c :: cs, acc => digitsToNat cs (acc * 10 + (c.toNat - 48))

/-- The exact rational value of a plain unsigned decimal string
(`digits` or `digits.digits`), or `none` when the string is not of that
form. -/
def parseDecimalQ (s : String) : Option ℚ :=
  match jsSplitChar '.' s.data with
  | [w] =>
      if w ≠ [] ∧ w.all isDigitChar then some (mkRat (digitsToNat w 0) 1)
      else none
  | [w, f] =>
      if (w ++ f) ≠ [] ∧ (w ++ f).all isDigitChar then
        some (mkRat (digitsToNat (w ++ f) 0) (10 ^ f.length))
      else none
  | _ => none

/-- JavaScript `parseFloat` on plain unsigned decimal notation (the only
forms the claims involve): the exact decimal value rounded to the nearest
double. Exponent notation, signs, `Infinity` and trailing-garbage tolerance
are outside the model. -/
def jsParseFloat (s : String) : Option ℚ :=
  (parseDecimalQ s).map fp64round

/-- `Math.pow(10, d)` for a natural `d`: correctly rounded (and exact for
`d ≤ 22`). -/
def jsPow10 (d : ℕ) : ℚ :=
  fp64round (mkRat ((10 ^ d : ℕ) : ℤ) 1)

/-- The double value sent as the quote-request amount:
`parseFloat(amount) * Math.pow(10, decimals)` in binary64 arithmetic. -/
def fromAmountValue (amount : String) (decimals : ℕ) : Option ℚ :=
  (jsParseFloat amount).map (fun v => fp64mul v (jsPow10 decimals))

/-- Decimal digit characters of a natural number, by fuel. -/
def natToDigitsAux : ℕ → ℕ → List Char → List Char
  | 0, _, acc => acc
  | fuel + 1, n, acc =>
      if n < 10 then Char.ofNat (48 + n) :: acc
      else natToDigitsAux fuel (n / 10) (Char.ofNat (48 + n % 10) :: acc)

/-- The decimal string of a natural number. -/
def natToDecimalString (n : ℕ) : String :=
  ⟨natToDigitsAux (n + 1) n []⟩

/-- `k` zero characters. -/
def zeroChars (k : ℕ) : List Char :=
  List.replicate k '0'

/-- Does `(s, kk, nn)` represent the double `x`: `s` has exactly `kk` decimal
digits and `s * 10 ^ (nn - kk)` rounds back to `x`. -/
def reprOk (x : ℚ) (s : ℤ) (kk : ℕ) (nn : ℤ) : Bool :=
  decide (((10 ^ (kk - 1) : ℕ) : ℤ) ≤ s) && decide (s < ((10 ^ kk : ℕ) : ℤ)) &&
    decide (fp64round (intMulPow10 s (nn - kk)) = x)

/-- The two integer candidates nearest to `x * 10 ^ (kk - nn)`, nearest
first (ties: the even one first), per the ECMAScript choice of `s`. -/
def digitCandidates (x : ℚ) (kk : ℕ) (nn : ℤ) : List ℤ :=
  let scaled := qScalePow10 x ((kk : ℤ) - nn)
  let fl : ℤ := scaled.num.fdiv scaled.den
  let num2 : ℤ := scaled.num - fl * scaled.den
  if 2 * num2 < (scaled.den : ℤ) then [fl, fl + 1]
  else if ((scaled.den : ℤ)) < 2 * num2 then [fl + 1, fl]
  else if fl % 2 = 0 then [fl, fl + 1] else [fl + 1, fl]

/-- The candidate representations of `x` with `kk` digits: decimal point
positions `p + 1` (the generic case) and `p + 2` (the carry case), where
`p = ⌊log 10 x⌋`. -/
def searchAt (x : ℚ) (p : ℤ) (kk : ℕ) : Option (ℤ × ℕ × ℤ) :=
  let tryNn := fun (nn : ℤ) =>
    (digitCandidates x kk nn).find? (fun s => reprOk x s kk nn) |>.map
      (fun s => (s, kk, nn))
  match tryNn (p + 1) with
  | some r => some r
  | none => tryNn (p + 2)

/-- The ECMAScript digit selection for a positive double `x`: the smallest
digit count `kk ≤ 17` admitting a round-trip representation, with the
nearest (ties-even) digit string. -/
def findRepr (x : ℚ) (p : ℤ) : List ℕ → Option (ℤ × ℕ × ℤ)
  | [] => none
  | kk :: rest =>
      match searchAt x p kk with
      | some r => some r
      | none => findRepr x p rest

/-- Lay out digits `s` (with `kk` digits) and decimal-point position `nn` per
ECMAScript `Number::toString`: plain notation for `-5 ≤ nn ≤ 21`, exponential
notation otherwise. -/
def formatRepr (s : ℕ) (kk : ℕ) (nn : ℤ) : String :=
  let ds := (natToDecimalString s).data
  if (kk : ℤ) ≤ nn ∧ nn ≤ 21 then ⟨ds ++ zeroChars (nn - kk).toNat⟩
  else if 0 < nn ∧ nn ≤ 21 then ⟨ds.take nn.toNat ++ '.' :: ds.drop nn.toNat⟩
  else if -5 ≤ nn ∧ nn ≤ 0 then ⟨'0' :: '.' :: (zeroChars (-nn).toNat ++ ds)⟩
  else
    let em := nn - 1
    let signChar : List Char := if em < 0 then ['-'] else ['+']
    let mantissaChars : List Char :=
      match ds with
      | [] => []
      | d :: [] => [d]
      | d :: rest => d :: '.' :: rest
    ⟨mantissaChars ++ 'e' :: signChar ++ (natToDecimalString em.natAbs).data⟩

/-- JavaScript `Number.prototype.toString` (radix 10) on the exact rational
value of a double. -/
def jsNumberToString (x : ℚ) : String :=
  if x.num = 0 then "0"
  else
    let ax : ℚ := if x.num < 0 then mkRat (-x.num) x.den else x
    let p := ratLogFloor 10 ax
    let body :=
      match findRepr ax p ((List.range 17).map (· + 1)) with
      | some (s, kk, nn) => formatRepr s.toNat kk nn
      | none => formatRepr (qrne (qScalePow10 ax (16 - p))).toNat 17 (p + 1)
    if x.num < 0 then "-" ++ body else body

/-- The quote-request amount string
`(parseFloat(amount) * Math.pow(10, decimals)).toString()` (bridge command
line 366; wizard line 948). -/
def fromAmountString (amount : String) (decimals : ℕ) : Option String :=
  (fromAmountValue amount decimals).map jsNumberToString

/-- Model validation: the decimal literal `0.1` parses to the well-known
binary64 value `3602879701896397 / 2^55`. -/
theorem fp64round_tenth :
    fp64round (mkRat 1 10) = mkRat 3602879701896397 (2 ^ 55) := by decide

/-- C1 (counterexample to the claim as stated): the truncated fixed-point
integer for amount `"0.0000001"` with 6 decimals is `0` (the exact product is
`10^6/10^7 = 0.1`), so the claim predicts the quote-request amount `"0"`; but
the code sends the stringified double product, which is
`"0.09999999999999999"` — a non-integer decimal, not `"0"`. -/
theorem c1_amount_truncation_counterexample :
    fromAmountString "0.0000001" 6 = some "0.09999999999999999" ∧
      ⌊mkRat (10 ^ 6) (10 ^ 7)⌋ = 0 ∧
      fromAmountString "0.0000001" 6 ≠ some "0" := by
  decide

/-- C1 (amended): the quote-request amount on the bridge and wizard paths is
the JavaScript decimal string of the IEEE-754 double product
`parseFloat(amount) * Math.pow(10, decimals)`, with no truncation to a
fixed-point integer: `"1.5"` with 6 decimals yields `"1500000"` (that product
is exact), while `"0.0000001"` with 6 decimals yields the double
`7205759403792793 / 2^56` and the string `"0.09999999999999999"`, not
`"0"`. -/
theorem c1_amount_float_conversion :
    fromAmountString "1.5" 6 = some "1500000" ∧
      fromAmountValue "1.5" 6 = some (1500000 : ℚ) ∧
      fromAmountString "0.0000001" 6 = some "0.09999999999999999" ∧
      fromAmountValue "0.0000001" 6 = some (mkRat 7205759403792793 (2 ^ 56)) := by
  decide

end MinaCli
